import Mathlib

/-!
Verification of the chainlite ledger engine (src/app/blockchain.py and
src/app/utils.py), shallowly embedded in Lean.  Machine integers are
modelled as Nat/Int (Python ints are unbounded); SHA-256 is implemented
concretely over byte lists with 32-bit words as Nat reduced mod 2^32;
JSON serialization follows json.dumps with sort_keys=True and the default
separators.  The document store is an external collaborator (spec section 6);
the embedding models the in-memory state, taking the store-fallback code
path of new_block (the block appended as constructed, no _id field).
-/

namespace ChainLite

/-- Truncate to a 32-bit word (Python / SHA-256 word arithmetic). -/
def m32 (n : Nat) : Nat := n % 4294967296

/-- Rotate a 32-bit word right by k bit positions. -/
def rotr (k n : Nat) : Nat := m32 ((n >>> k) ||| (n <<< (32 - k)))

/-- Bitwise complement within 32 bits. -/
def not32 (n : Nat) : Nat := Nat.xor n 4294967295

def bsig0 (x : Nat) : Nat := Nat.xor (rotr 2 x) (Nat.xor (rotr 13 x) (rotr 22 x))

def bsig1 (x : Nat) : Nat := Nat.xor (rotr 6 x) (Nat.xor (rotr 11 x) (rotr 25 x))

def ssig0 (x : Nat) : Nat := Nat.xor (rotr 7 x) (Nat.xor (rotr 18 x) (x >>> 3))

def ssig1 (x : Nat) : Nat := Nat.xor (rotr 17 x) (Nat.xor (rotr 19 x) (x >>> 10))

def chf (x y z : Nat) : Nat := Nat.xor (Nat.land x y) (Nat.land (not32 x) z)

def maj (x y z : Nat) : Nat :=
  Nat.xor (Nat.land x y) (Nat.xor (Nat.land x z) (Nat.land y z))

/-- The 64 SHA-256 round constants, in decimal. -/
def sha256K : List Nat :=
  [1116352408, 1899447441, 3049323471, 3921009573,
   961987163, 1508970993, 2453635748, 2870763221,
   3624381080, 310598401, 607225278, 1426881987,
   1925078388, 2162078206, 2614888103, 3248222580,
   3835390401, 4022224774, 264347078, 604807628,
   770255983, 1249150122, 1555081692, 1996064986,
   2554220882, 2821834349, 2952996808, 3210313671,
   3336571891, 3584528711, 113926993, 338241895,
   666307205, 773529912, 1294757372, 1396182291,
   1695183700, 1986661051, 2177026350, 2456956037,
   2730485921, 2820302411, 3259730800, 3345764771,
   3516065817, 3600352804, 4094571909, 275423344,
   430227734, 506948616, 659060556, 883997877,
   958139571, 1322822218, 1537002063, 1747873779,
   1955562222, 2024104815, 2227730452, 2361852424,
   2428436474, 2756734187, 3204031479, 3329325298]

/-- SHA-256 working state: the eight 32-bit hash registers. -/
abbrev H8 := Nat × Nat × Nat × Nat × Nat × Nat × Nat × Nat

/-- Initial values of the eight hash registers, in decimal. -/
def sha256Init : H8 :=
  (1779033703,
   3144134277,
   1013904242,
   2773480762,
   1359893119,
   2600822924,
   528734635,
   1541459225)

/-- One SHA-256 compression round, consuming one (constant, schedule word) pair. -/
def sha256Round (st : H8) (kw : Nat × Nat) : H8 :=
  match st with
  | (a, b, c, d, e, f, g, h) =>
    let t1 := m32 (h + bsig1 e + chf e f g + kw.1 + kw.2)
    let t2 := m32 (bsig0 a + maj a b c)
    (m32 (t1 + t2), a, b, c, m32 (d + t1), e, f, g)

/-- Extend the 16-word message block to the 64-word schedule, one word per step. -/
def extendW : Nat → List Nat → List Nat
  | 0, ws => ws
  | k + 1, ws =>
    let n := ws.length
    let w := m32 (ssig1 (ws.getD (n - 2) 0) + ws.getD (n - 7) 0 +
                  ssig0 (ws.getD (n - 15) 0) + ws.getD (n - 16) 0)
    extendW k (ws ++ [w])

/-- Add two hash states componentwise mod 2^32. -/
def add8 (x y : H8) : H8 :=
  (m32 (x.1 + y.1), m32 (x.2.1 + y.2.1), m32 (x.2.2.1 + y.2.2.1),
   m32 (x.2.2.2.1 + y.2.2.2.1), m32 (x.2.2.2.2.1 + y.2.2.2.2.1),
   m32 (x.2.2.2.2.2.1 + y.2.2.2.2.2.1), m32 (x.2.2.2.2.2.2.1 + y.2.2.2.2.2.2.1),
   m32 (x.2.2.2.2.2.2.2 + y.2.2.2.2.2.2.2))

/-- Process one 16-word message block. -/
def sha256Block (st : H8) (ws : List Nat) : H8 :=
  let sched := extendW 48 ws
  let st2 := (sha256K.zip sched).foldl sha256Round st
  add8 st st2

/-- Big-endian 32-bit words from a byte list (length a multiple of 4). -/
def toWords : List Nat → List Nat
  | a :: b :: c :: d :: rest => (a * 16777216 + b * 65536 + c * 256 + d) :: toWords rest
  | _ => []

/-- Group a word list into 16-word blocks (length a multiple of 16). -/
def group16 : List Nat → List (List Nat)
  | w0 :: w1 :: w2 :: w3 :: w4 :: w5 :: w6 :: w7 ::
    w8 :: w9 :: w10 :: w11 :: w12 :: w13 :: w14 :: w15 :: rest =>
    [w0, w1, w2, w3, w4, w5, w6, w7, w8, w9, w10, w11, w12, w13, w14, w15] ::
      group16 rest
  | _ => []

/-- The eight big-endian bytes of a 64-bit length field. -/
def be8 (n : Nat) : List Nat :=
  [(n >>> 56) % 256, (n >>> 48) % 256, (n >>> 40) % 256, (n >>> 32) % 256,
   (n >>> 24) % 256, (n >>> 16) % 256, (n >>> 8) % 256, n % 256]

/-- SHA-256 padding: 0x80, zeros to 56 mod 64, then the bit length big-endian. -/
def padBytes (msg : List Nat) : List Nat :=
  let l := msg.length
  let z := (64 - (l + 9) % 64) % 64
  msg ++ [128] ++ List.replicate z 0 ++ be8 (8 * l)

/-- The eight final hash registers of SHA-256 of a byte list. -/
def sha256Words (msg : List Nat) : List Nat :=
  let st := (group16 (toWords (padBytes msg))).foldl sha256Block sha256Init
  [st.1, st.2.1, st.2.2.1, st.2.2.2.1, st.2.2.2.2.1, st.2.2.2.2.2.1,
   st.2.2.2.2.2.2.1, st.2.2.2.2.2.2.2]

/-- Lowercase hex digit. -/
def hexDigit (n : Nat) : Char :=
  if n < 10 then Char.ofNat (48 + n) else Char.ofNat (87 + n)

/-- Eight lowercase hex characters of a 32-bit word. -/
def wordHex (n : Nat) : List Char :=
  [hexDigit ((n >>> 28) % 16), hexDigit ((n >>> 24) % 16),
   hexDigit ((n >>> 20) % 16), hexDigit ((n >>> 16) % 16),
   hexDigit ((n >>> 12) % 16), hexDigit ((n >>> 8) % 16),
   hexDigit ((n >>> 4) % 16), hexDigit (n % 16)]

/-- hashlib.sha256(msg).hexdigest() as a character list. -/
def sha256Hex (msg : List Nat) : List Char :=
  ((sha256Words msg).map wordHex).flatten

/-- UTF-8 encoding of one character (str.encode()). -/
def utf8Char (c : Char) : List Nat :=
  let n := c.toNat
  if n < 128 then [n]
  else if n < 2048 then [192 + n / 64, 128 + n % 64]
  else if n < 65536 then [224 + n / 4096, 128 + (n / 64) % 64, 128 + n % 64]
  else [240 + n / 262144, 128 + (n / 4096) % 64, 128 + (n / 64) % 64, 128 + n % 64]

/-- UTF-8 bytes of a string (str.encode()). -/
def strBytes (s : String) : List Nat := (s.data.map utf8Char).flatten

/-- Four lowercase hex characters (the \uXXXX form used by json escaping). -/
def hex4 (n : Nat) : List Char :=
  [hexDigit ((n / 4096) % 16), hexDigit ((n / 256) % 16),
   hexDigit ((n / 16) % 16), hexDigit (n % 16)]

/-- json.dumps escaping of one character (default ensure_ascii=True: everything
outside 0x20..0x7e is escaped, with the usual short forms). -/
def escChar (c : Char) : List Char :=
  let n := c.toNat
  if c = '\"' then ['\\', '\"']
  else if c = '\\' then ['\\', '\\']
  else if n = 8 then ['\\', 'b']
  else if n = 9 then ['\\', 't']
  else if n = 10 then ['\\', 'n']
  else if n = 12 then ['\\', 'f']
  else if n = 13 then ['\\', 'r']
  else if n < 32 then '\\' :: 'u' :: hex4 n
  else if n < 127 then [c]
  else if n < 65536 then '\\' :: 'u' :: hex4 n
  else
    ('\\' :: 'u' :: hex4 (55296 + (n - 65536) / 1024)) ++
      ('\\' :: 'u' :: hex4 (56320 + (n - 65536) % 1024))

/-- json.dumps of a string value. -/
def jsonString (s : String) : String :=
  "\"" ++ String.mk ((s.data.map escChar).flatten) ++ "\""

/-- json.dumps of an optional string: Python None serializes as null. -/
def jsonOptString : Option String → String
  | none => "null"
  | some s => jsonString s

/-- Join strings with a separator (the ", " and ": " default separators). -/
def joinSep (sep : String) : List String → String
  | [] => ""
  | [x] => x
  | x :: xs => x ++ sep ++ joinSep sep xs

/-- A transaction record as built by Blockchain.new_transaction: keys sender,
recipient, amount, optional signature, timestamp, hash.  Amounts are modelled
at integral values (Python passes a float; the engine stores it untouched, and
an int serializes in plain decimal). -/
structure Tx where
  sender : String
  recipient : String
  amount : Int
  signature : Option String
  timestamp : Int
  hash : String
deriving DecidableEq

/-- A block dictionary as built by Blockchain.new_block (store fallback path,
so no _id key): keys index, timestamp, transactions, proof, previous_hash. -/
structure Block where
  index : Int
  timestamp : Int
  transactions : List Tx
  proof : Int
  previous_hash : Option String
deriving DecidableEq

/-- json.dumps(tx, sort_keys=True) for a transaction dictionary; the keys in
sorted order are amount, hash, recipient, sender, signature, timestamp, and
the signature key is present only when it was attached. -/
def txJson (t : Tx) : String :=
  "\x7b\"amount\": " ++ toString t.amount ++
    ", \"hash\": " ++ jsonString t.hash ++
    ", \"recipient\": " ++ jsonString t.recipient ++
    ", \"sender\": " ++ jsonString t.sender ++
    (match t.signature with
     | none => ""
     | some sg => ", \"signature\": " ++ jsonString sg) ++
    ", \"timestamp\": " ++ toString t.timestamp ++ "\x7d"

/-- json.dumps(block, sort_keys=True) for a block dictionary; the keys in
sorted order are index, previous_hash, proof, timestamp, transactions. -/
def blockJson (b : Block) : String :=
  "\x7b\"index\": " ++ toString b.index ++
    ", \"previous_hash\": " ++ jsonOptString b.previous_hash ++
    ", \"proof\": " ++ toString b.proof ++
    ", \"timestamp\": " ++ toString b.timestamp ++
    ", \"transactions\": [" ++ joinSep ", " (b.transactions.map txJson) ++ "]\x7d"

/-- Blockchain.hash / utils.hash_block: sha256 hexdigest of the sorted-keys
json serialization of the block. -/
def hashBlock (b : Block) : String := String.mk (sha256Hex (strBytes (blockJson b)))

/-- Blockchain.valid_proof: sha256 of the decimal concatenation of the two
proofs, first four hex characters compared to "0000". -/
def valid_proof (last_proof proof : Int) : Bool :=
  (sha256Hex (strBytes (toString last_proof ++ toString proof))).take 4 ==
    ['0', '0', '0', '0']

/-- utils.valid_proof: same with a difficulty parameter, compared to
"0" * difficulty. -/
def utils_valid_proof (last_proof proof : Int) (difficulty : Nat) : Bool :=
  (sha256Hex (strBytes (toString last_proof ++ toString proof))).take difficulty ==
    List.replicate difficulty '0'

/-- Blockchain.proof_of_work: proof = 0; while not valid_proof: proof += 1.
The loop returns the least satisfying candidate; the hypothesis is the
termination condition (some candidate exists). -/
def proof_of_work (last_proof : Int)
    (h : ∃ p : Nat, valid_proof last_proof p = true) : Nat :=
  Nat.find h

/-- The tx_for_hash dictionary of Blockchain.new_transaction, sorted keys
amount, recipient, sender, signature, timestamp, with signature or ''. -/
def txForHashJson (sender recipient : String) (amount : Int)
    (signature : Option String) (timestamp_ms : Int) : String :=
  "\x7b\"amount\": " ++ toString amount ++
    ", \"recipient\": " ++ jsonString recipient ++
    ", \"sender\": " ++ jsonString sender ++
    ", \"signature\": " ++ jsonString (signature.getD "") ++
    ", \"timestamp\": " ++ toString timestamp_ms ++ "\x7d"

/-- The transaction record appended by Blockchain.new_transaction, with its
deterministic transaction hash attached. -/
def mkTx (sender recipient : String) (amount : Int) (signature : Option String)
    (timestamp_ms : Int) : Tx :=
  ⟨sender, recipient, amount, signature, timestamp_ms,
    String.mk (sha256Hex (strBytes (txForHashJson sender recipient amount signature timestamp_ms)))⟩

/-- Blockchain.new_transaction: appends the transaction to the pending pool and
returns last_block.index + 1 (none when the chain is empty, where the Python
code would raise an IndexError after the append).  The caller-side default of
timestamp_ms (current time) is a parameter here. -/
def new_transaction (chain : List Block) (pool : List Tx)
    (sender recipient : String) (amount : Int) (signature : Option String)
    (timestamp_ms : Int) : List Tx × Option Int :=
  (pool ++ [mkTx sender recipient amount signature timestamp_ms],
   chain.getLast?.map (fun b => b.index + 1))

/-- Blockchain.new_block.  The previous_hash field is computed by
previous_hash or self.hash(self.chain[-1]) if self.chain else None,
which Python parses as
(previous_hash or self.hash(self.chain[-1])) if self.chain else None:
on an empty chain the passed previous_hash is discarded and the field is None;
otherwise a falsy argument (None or the empty string) falls back to the hash of
the last block.  index is len(chain) + 1 and the pool is snapshotted into the
block and cleared.  Returns (new chain, new pool, sealed block). -/
def new_block (chain : List Block) (pool : List Tx) (proof : Int)
    (previous_hash : Option String) (now : Int) : List Block × List Tx × Block :=
  let ph : Option String :=
    match chain.getLast? with
    | none => none
    | some last =>
      match previous_hash with
      | some s => if s = "" then some (hashBlock last) else some s
      | none => some (hashBlock last)
  let b : Block := ⟨(chain.length : Int) + 1, now, pool, proof, ph⟩
  (chain ++ [b], [], b)

/-- Blockchain.__init__ with no prior persisted state: _load_from_database
yields an empty chain and pool, then new_block(previous_hash='1', proof=100)
creates the genesis block. -/
def initLedger (now : Int) : List Block × List Tx :=
  let r := new_block [] [] 100 (some "1") now
  (r.1, r.2.1)

/-- The pairwise walk of Blockchain.valid_chain from current_index = 1. -/
def valid_chain_loop (last : Block) : List Block → Bool
  | [] => true
  | b :: rest =>
    if b.previous_hash == some (hashBlock last) then
      if valid_proof last.proof b.proof then valid_chain_loop b rest
      else false
    else false

/-- Blockchain.valid_chain: an empty chain is invalid; otherwise walk the
chain pairwise checking hash linkage and proof-of-work linkage. -/
def valid_chain : List Block → Bool
  | [] => false
  | first :: rest => valid_chain_loop first rest

/-- Prefix test on character lists (str.startswith). -/
def charsLeadWith : List Char → List Char → Bool
  | [], _ => true
  | _ :: _, [] => false
  | c :: cs, d :: ds => c == d && charsLeadWith cs ds

/-- address.startswith(prefix). -/
def strStartsWith (s pre : String) : Bool := charsLeadWith pre.data s.data

/-- The scheme-defaulting step of Blockchain.register_node: prefix http://
when no scheme is present. -/
def normalizeAddr (address : String) : String :=
  if strStartsWith address "http://" || strStartsWith address "https://" then address
  else "http://" ++ address

/-- urlparse(address).netloc for an address carrying an http or https scheme:
everything after the // up to the first slash, question mark or hash mark. -/
def extractNetloc (address : String) : String :=
  let rest : List Char :=
    if strStartsWith address "http://" then address.data.drop 7
    else if strStartsWith address "https://" then address.data.drop 8
    else []
  String.mk (rest.takeWhile (fun c => !(c == '/' || c == '?' || c == '#')))

/-- Blockchain.register_node over the in-memory node set (modelled as a
duplicate-free list; the store upsert is assumed to succeed, so the ValueError
re-raise branch is unreachable).  An address without a parseable host logs a
warning and returns with the registry unchanged; a known address returns
unchanged; otherwise the netloc is added. -/
def register_node (nodes : List String) (address : String) :
    Except String (List String) :=
  let a := normalizeAddr address
  let netloc := extractNetloc a
  if netloc = "" then .ok nodes
  else if netloc ∈ nodes then .ok nodes
  else .ok (nodes ++ [netloc])

/-- One iteration of the peer loop in Blockchain.resolve_conflicts: the
accumulator is (max_length, new_chain); an unreachable peer or malformed
response (none) is skipped; a response carries the reported chain_length and
the chain, adopted as candidate when strictly longer than max_length and
valid. -/
def resolveStep (acc : Int × Option (List Block))
    (r : Option (Int × List Block)) : Int × Option (List Block) :=
  match r with
  | none => acc
  | some (len, ch) =>
    if decide (acc.1 < len) && valid_chain ch then (len, some ch) else acc

/-- Blockchain.resolve_conflicts, with the per-peer network results supplied
as a list (one entry per registered node; none models a request failure or a
response without the expected shape).  Returns the final chain and the
replaced flag; the no-registered-nodes check is the empty-list early
return, and the final test on new_chain is Python truthiness, so an empty
candidate list would not replace. -/
def resolve_conflicts (chain : List Block)
    (responses : List (Option (Int × List Block))) : List Block × Bool :=
  if responses.isEmpty then (chain, false)
  else
    match (responses.foldl resolveStep ((chain.length : Int), none)).2 with
    | some newChain => if newChain.isEmpty then (chain, false) else (newChain, true)
    | none => (chain, false)

/-- Generic JSON values, for the canonical-codec claim about arbitrary
mappings (Python dicts). -/
inductive J where
  | null : J
  | jint : Int → J
  | jstr : String → J
  | jarr : List J → J
  | jobj : List (String × J) → J

mutual

/-- Size of a JSON value, strictly bounding its nesting depth: fuel for the
serializer below. -/
def jsize : J → Nat
  | .null => 1
  | .jint _ => 1
  | .jstr _ => 1
  | .jarr xs => 1 + jsizeArr xs
  | .jobj kvs => 1 + jsizeObj kvs

/-- Size of a JSON array body. -/
def jsizeArr : List J → Nat
  | [] => 1
  | x :: xs => 1 + jsize x + jsizeArr xs

/-- Size of a JSON object body. -/
def jsizeObj : List (String × J) → Nat
  | [] => 1
  | kv :: xs => 1 + jsize kv.2 + jsizeObj xs

end

/-- json.dumps(value, sort_keys=True) with the default separators, with an
explicit recursion-depth fuel so that the definition is structurally
recursive; jsize of a value strictly bounds its nesting depth, so the fuel
used by dumps below never runs out.  Mapping entries are sorted by key at
every nesting level (dict keys are distinct, so sorting the items sorts by
key, as the json encoder does). -/
def dumpsF : Nat → J → String
  | 0, _ => ""
  | _ + 1, .null => "null"
  | _ + 1, .jint i => toString i
  | _ + 1, .jstr s => jsonString s
  | n + 1, .jarr xs => "[" ++ joinSep ", " (xs.map (dumpsF n)) ++ "]"
  | n + 1, .jobj kvs =>
    "\x7b" ++
      joinSep ", "
        ((kvs.insertionSort (fun a b => a.1 ≤ b.1)).map
          (fun kv => jsonString kv.1 ++ ": " ++ dumpsF n kv.2)) ++ "\x7d"

/-- json.dumps(value, sort_keys=True). -/
def dumps (j : J) : String := dumpsF (jsize j) j

/-- Blockchain.hash applied to an arbitrary mapping: sha256 hexdigest of the
sorted-keys json serialization. -/
def jsonHash (kvs : List (String × J)) : String :=
  String.mk (sha256Hex (strBytes (dumps (J.jobj kvs))))

/-! Theorems -/

/-- A sample sealed block used as a concrete input in witnesses: the genesis
block the code actually produces (index 1, proof 100, previous_hash None). -/
def gBlock : Block := ⟨1, 0, [], 100, none⟩

/-- Each 32-bit word renders as eight hex characters, so the digest of the
eight hash registers has length 64. -/
theorem flatten_map_wordHex_length (l : List Nat) :
    ((l.map wordHex).flatten).length = 8 * l.length := by
  induction l with
  | nil => rfl
  | cons a l ih => simp [wordHex, ih]; omega

/-- A SHA-256 hex digest has 64 characters. -/
theorem sha256Hex_length (msg : List Nat) : (sha256Hex msg).length = 64 := by
  have h8 : (sha256Words msg).length = 8 := rfl
  rw [sha256Hex, flatten_map_wordHex_length, h8]

/-- C10: valid_chain accepts every single-block chain: the pairwise loop never
runs, so the index, previous_hash and proof of the first block are not
inspected. -/
theorem valid_chain_singleton (b : Block) : valid_chain [b] = true := rfl

/-- C2: evaluating initialization with no persisted state: the chain has
exactly one block with index 1 and proof 100, the pool is empty — but the
previous_hash of the genesis block is None, not the sentinel "1": the conditional
expression in new_block discards the passed previous_hash when the chain is
empty. -/
theorem initLedger_genesis (now : Int) :
    (initLedger now).1.length = 1 ∧
    (∀ b ∈ (initLedger now).1,
      b.index = 1 ∧ b.proof = 100 ∧ b.previous_hash = none) ∧
    (initLedger now).2 = [] := by
  refine ⟨rfl, ?_, rfl⟩
  intro b hb
  simp only [initLedger, new_block, List.getLast?_nil, List.length_nil,
    List.nil_append, List.mem_singleton] at hb
  subst hb
  exact ⟨rfl, rfl, rfl⟩

/-- A proof-of-work solution for last_proof 884 exists (witness nonce 84). -/
theorem powEx884 : ∃ p : Nat, valid_proof 884 p = true := ⟨84, by decide⟩

/-- C4: under the precondition that some candidate satisfies valid_proof,
the search loop of proof_of_work (candidate 0, 1, 2, ... until valid_proof)
terminates with the least satisfying non-negative integer, which in particular
satisfies valid_proof. -/
theorem proof_of_work_least (last_proof : Int)
    (h : ∃ p : Nat, valid_proof last_proof p = true) :
    valid_proof last_proof (proof_of_work last_proof h) = true ∧
    ∀ q : Nat, valid_proof last_proof q = true → proof_of_work last_proof h ≤ q :=
  ⟨Nat.find_spec h, fun _ hq => Nat.find_min' h hq⟩

/-- Witness for C4 at last_proof 884. -/
theorem proof_of_work_least_witness :
    valid_proof 884 (proof_of_work 884 powEx884) = true :=
  (proof_of_work_least 884 powEx884).1

/-- C1 counterexample: at amount 0 (non-positive), new_transaction does not
fail and does not leave the pool unchanged: it appends the transaction and
returns the next block index, exactly as for a positive amount. -/
theorem new_transaction_zero_counterexample :
    (new_transaction [gBlock] [] "0xAAAAAA" "0xBBBBBB" 0 none 0).1.length = 1 ∧
    (new_transaction [gBlock] [] "0xAAAAAA" "0xBBBBBB" 0 none 0).2 = some 2 :=
  ⟨rfl, rfl⟩

/-- C1 (amended): new_transaction performs no amount validation: for every
amount, positive or not, it appends exactly one transaction record to the
pending pool and returns last_block.index + 1.  Amount positivity is enforced
only by the API request model, not by this engine operation. -/
theorem new_transaction_appends (chain : List Block) (pool : List Tx)
    (sender recipient : String) (amount : Int) (signature : Option String)
    (timestamp_ms : Int) (last : Block) (h : chain.getLast? = some last) :
    (new_transaction chain pool sender recipient amount signature timestamp_ms).1 =
      pool ++ [mkTx sender recipient amount signature timestamp_ms] ∧
    (new_transaction chain pool sender recipient amount signature timestamp_ms).2 =
      some (last.index + 1) := by
  refine ⟨rfl, ?_⟩
  simp [new_transaction, h]

/-- Witness for C1 at the genesis chain with amount 10. -/
theorem new_transaction_appends_witness :
    (new_transaction [gBlock] [] "0xAAAAAA" "0xBBBBBB" 10 none 0).2 = some 2 := by
  have h := new_transaction_appends [gBlock] [] "0xAAAAAA" "0xBBBBBB" 10 none 0
    gBlock rfl
  rw [h.2]; rfl

/-- A block whose index (5) differs from its chain position, as consensus can
adopt (valid_chain never checks indices). -/
def b5Block : Block := ⟨5, 0, [], 100, some "1"⟩

/-- C6 counterexample: sealing on the one-block chain [b5Block] produces a
block with index 2 = len(chain) + 1, not 6 = last.index + 1. -/
theorem new_block_index_counterexample :
    ((new_block [b5Block] [] 7 (some "xyz") 0).2.2).index = 2 ∧
    b5Block.index + 1 = 6 ∧
    ((new_block [b5Block] [] 7 (some "xyz") 0).2.2).index ≠ b5Block.index + 1 := by
  refine ⟨rfl, rfl, by decide⟩

/-- C6 (amended): after new_block on a non-empty chain, the chain grows by
exactly one appended block, the index of the new block is the pre-call chain length
plus 1 (equal to last.index + 1 exactly when block indices are contiguous from
1), its transactions are the snapshot of the pre-call pool, the pool is
cleared, and an omitted previous_hash defaults to the hash of the previous
last block. -/
theorem new_block_seals (chain : List Block) (pool : List Tx)
    (proof : Int) (previous_hash : Option String) (now : Int)
    (h : chain ≠ []) :
    (new_block chain pool proof previous_hash now).1.length = chain.length + 1 ∧
    ((new_block chain pool proof previous_hash now).2.2).index =
      (chain.length : Int) + 1 ∧
    ((new_block chain pool proof previous_hash now).2.2).transactions = pool ∧
    (new_block chain pool proof previous_hash now).2.1 = [] ∧
    (new_block chain pool proof previous_hash now).1 =
      chain ++ [(new_block chain pool proof previous_hash now).2.2] ∧
    (previous_hash = none →
      ∃ last, chain.getLast? = some last ∧
        ((new_block chain pool proof previous_hash now).2.2).previous_hash =
          some (hashBlock last)) := by
  refine ⟨by simp [new_block], rfl, rfl, rfl, rfl, ?_⟩
  rintro rfl
  obtain ⟨last, hlast⟩ := Option.isSome_iff_exists.mp
    ((List.getLast?_isSome (l := chain)).mpr h)
  exact ⟨last, hlast, by simp [new_block, hlast]⟩

/-- Witness for C6 at the genesis chain with an omitted previous_hash. -/
theorem new_block_seals_witness :
    (new_block [gBlock] [] 7 none 0).1.length = 2 := by
  have h := new_block_seals [gBlock] [] 7 none 0 (by simp)
  simpa using h.1

/-- C8 counterexample: the empty string cannot be parsed into a host
component, yet register_node returns normally (no InvalidAddress error),
leaving the registry unchanged: the code logs a warning and returns. -/
theorem register_node_empty_counterexample :
    register_node ["a:1"] "" = Except.ok ["a:1"] := rfl

/-- C8 (amended): an address without a parseable host component is rejected
silently — register_node returns normally with the registry unchanged, raising
no error; a parseable address is stored in normalized host:port form, with a
missing scheme defaulted so that the stored entry is the same whether or not
http:// was supplied; re-registering a known peer is a no-op. -/
theorem register_node_spec (nodes : List String) (address : String) :
    (extractNetloc (normalizeAddr address) = "" →
      register_node nodes address = Except.ok nodes) ∧
    (extractNetloc (normalizeAddr address) ∈ nodes →
      register_node nodes address = Except.ok nodes) ∧
    (extractNetloc (normalizeAddr address) ≠ "" →
      extractNetloc (normalizeAddr address) ∉ nodes →
      register_node nodes address =
        Except.ok (nodes ++ [extractNetloc (normalizeAddr address)])) ∧
    (strStartsWith address "http://" = false →
      strStartsWith address "https://" = false →
      register_node nodes ("http://" ++ address) = register_node nodes address) := by
  refine ⟨?_, ?_, ?_, ?_⟩
  · intro h; simp [register_node, h]
  · intro h
    by_cases he : extractNetloc (normalizeAddr address) = "" <;>
      simp [register_node, h, he]
  · intro h hm; simp [register_node, h, hm]
  · intro h1 h2
    have hpre : ∀ (p s : List Char), charsLeadWith p (p ++ s) = true := by
      intro p
      induction p with
      | nil => intro s; rfl
      | cons c cs ih => intro s; simp [charsLeadWith, ih]
    have hdata : ("http://" ++ address).data = "http://".data ++ address.data := by
      cases address; rfl
    have hsw : strStartsWith ("http://" ++ address) "http://" = true := by
      rw [strStartsWith, hdata]; exact hpre _ _
    have hn : normalizeAddr ("http://" ++ address) = "http://" ++ address := by
      simp [normalizeAddr, hsw]
    have hn2 : normalizeAddr address = "http://" ++ address := by
      simp [normalizeAddr, h1, h2]
    rw [register_node, register_node, hn, hn2]

/-- Witness for C8: registering a bare host:port address stores the
normalized netloc. -/
theorem register_node_spec_witness :
    register_node ["a:1"] "192.168.0.1:5000" =
      Except.ok (["a:1"] ++ [extractNetloc (normalizeAddr "192.168.0.1:5000")]) ∧
    extractNetloc (normalizeAddr "192.168.0.1:5000") = "192.168.0.1:5000" :=
  ⟨(register_node_spec ["a:1"] "192.168.0.1:5000").2.2.1 (by decide) (by decide),
   by decide⟩

/-- C3: valid_proof holds exactly when each of the first four hex characters
of the SHA-256 digest of the decimal concatenation of the two proofs is "0";
moreover the hardcoded "0000" check agrees with the parameterized utils
version at difficulty 4. -/
theorem valid_proof_iff (last_proof proof : Int) :
    (valid_proof last_proof proof = true ↔
      ∀ c ∈ (sha256Hex (strBytes (toString last_proof ++ toString proof))).take 4,
        c = '0') ∧
    valid_proof last_proof proof = utils_valid_proof last_proof proof 4 := by
  constructor
  · rw [valid_proof, beq_iff_eq,
      show (['0', '0', '0', '0'] : List Char) = List.replicate 4 '0' from rfl,
      List.eq_replicate_iff]
    have hlen :
        ((sha256Hex (strBytes (toString last_proof ++ toString proof))).take 4).length
          = 4 := by
      rw [List.length_take, sha256Hex_length]
      decide
    exact ⟨fun hc => hc.2, fun hc => ⟨hlen, hc⟩⟩
  · rfl

/-- The pairwise walk of valid_chain accepts exactly the chains whose
consecutive blocks are linked by hash and by proof-of-work. -/
theorem valid_chain_loop_iff (last : Block) (rest : List Block) :
    valid_chain_loop last rest = true ↔
      List.Chain'
        (fun a b => b.previous_hash = some (hashBlock a) ∧
          valid_proof a.proof b.proof = true) (last :: rest) := by
  induction rest generalizing last with
  | nil => simp [valid_chain_loop]
  | cons b rest ih =>
    rw [List.chain'_cons, ← ih b]
    rw [valid_chain_loop]
    by_cases h1 : b.previous_hash = some (hashBlock last)
    · by_cases h2 : valid_proof last.proof b.proof = true
      · simp [h1, h2]
      · simp [h1, h2]
    · simp [h1]

/-- C5: valid_chain rejects the empty chain, and accepts a non-empty chain
exactly when every non-genesis position i+1 has previous_hash equal to the
hash of the block at position i and a proof passing valid_proof against the
proof at position i: any linkage or proof-of-work violation is rejected, and
a chain satisfying all pairwise checks is accepted. -/
theorem valid_chain_iff (chain : List Block) :
    valid_chain chain = true ↔
      (chain ≠ [] ∧
        ∀ (i : Nat) (h1 : i < chain.length) (h2 : i + 1 < chain.length),
          (chain.get ⟨i + 1, h2⟩).previous_hash =
              some (hashBlock (chain.get ⟨i, h1⟩)) ∧
            valid_proof (chain.get ⟨i, h1⟩).proof
              (chain.get ⟨i + 1, h2⟩).proof = true) := by
  cases chain with
  | nil => simp [valid_chain]
  | cons first rest =>
    rw [show valid_chain (first :: rest) = valid_chain_loop first rest from rfl,
      valid_chain_loop_iff, List.chain'_iff_get]
    constructor
    · intro h
      refine ⟨by simp, ?_⟩
      intro i h1 h2
      exact h i (by simp at h2 ⊢; omega)
    · intro h i hi
      exact h.2 i (by simp at hi ⊢; omega) (by simp at hi ⊢; omega)

/-- In the peer loop of resolve_conflicts, a response that is unreachable,
not longer than the bound, or invalid leaves the accumulator untouched. -/
theorem foldl_resolveStep_stale (L : Int)
    (responses : List (Option (Int × List Block)))
    (h : ∀ r ∈ responses, ∀ len ch, r = some (len, ch) →
      len ≤ L ∨ valid_chain ch = false) :
    responses.foldl resolveStep (L, none) = (L, none) := by
  induction responses with
  | nil => rfl
  | cons r rs ih =>
    have hr := h r (by simp)
    have hrs : ∀ r' ∈ rs, ∀ len ch, r' = some (len, ch) →
        len ≤ L ∨ valid_chain ch = false :=
      fun r' hm => h r' (by simp [hm])
    rw [List.foldl_cons]
    have hstep : resolveStep (L, none) r = (L, none) := by
      cases r with
      | none => rfl
      | some p =>
        obtain ⟨len, ch⟩ := p
        rcases hr len ch rfl with hle | hvc
        · have hd : decide (L < len) = false := by simp; omega
          simp [resolveStep, hd]
        · simp [resolveStep, hvc]
    rw [hstep]
    exact ih hrs

/-- C7: with no peers, or with only peers whose reported chains are not
strictly longer than the local chain or fail valid_chain, resolve_conflicts
reports no replacement and returns the local chain unchanged. -/
theorem resolve_conflicts_no_replace (chain : List Block)
    (responses : List (Option (Int × List Block)))
    (h : ∀ r ∈ responses, ∀ len ch, r = some (len, ch) →
      len ≤ (chain.length : Int) ∨ valid_chain ch = false) :
    resolve_conflicts chain responses = (chain, false) := by
  rw [resolve_conflicts, foldl_resolveStep_stale _ _ h]
  split <;> rfl

/-- Witness for C7: one peer reporting a chain of equal length. -/
theorem resolve_conflicts_no_replace_witness :
    resolve_conflicts [gBlock] [some (1, [gBlock])] = ([gBlock], false) := by
  apply resolve_conflicts_no_replace
  intro r hr len ch he
  simp only [List.mem_singleton] at hr
  subst hr
  injection he with h1
  injection h1 with h2 h3
  subst h2
  left
  simp

/-- The size of a JSON object body is invariant under permutation of its
entries. -/
theorem perm_jsizeObj {l1 l2 : List (String × J)} (h : l1.Perm l2) :
    jsizeObj l1 = jsizeObj l2 := by
  induction h with
  | nil => rfl
  | cons x _ ih => simp [jsizeObj, ih]
  | swap x y l => simp [jsizeObj]; omega
  | trans _ _ ih1 ih2 => omega

/-- Sorting by key sends key-nodup permutations of an item list to the same
sorted list. -/
theorem insertionSort_key_perm_eq (l1 l2 : List (String × J))
    (hp : l1.Perm l2) (hnd : (l1.map Prod.fst).Nodup) :
    l1.insertionSort (fun a b => a.1 ≤ b.1) =
      l2.insertionSort (fun a b => a.1 ≤ b.1) := by
  haveI : IsTotal (String × J) (fun a b => a.1 ≤ b.1) :=
    ⟨fun a b => le_total a.1 b.1⟩
  haveI : IsTrans (String × J) (fun a b => a.1 ≤ b.1) :=
    ⟨fun _ _ _ hab hbc => le_trans hab hbc⟩
  haveI : IsAntisymm (String × J) (fun a b => a.1 < b.1) :=
    ⟨fun a b h1 h2 => absurd h2 (lt_asymm h1)⟩
  have hperm : (l1.insertionSort (fun a b => a.1 ≤ b.1)).Perm
      (l2.insertionSort (fun a b => a.1 ≤ b.1)) :=
    ((List.perm_insertionSort _ l1).trans hp).trans
      (List.perm_insertionSort _ l2).symm
  have hstrict : ∀ (l : List (String × J)), (l.map Prod.fst).Nodup →
      (l.insertionSort (fun a b => a.1 ≤ b.1)).Pairwise (fun a b => a.1 < b.1) := by
    intro l hl
    have hs := List.sorted_insertionSort (fun a b : String × J => a.1 ≤ b.1) l
    have hn : ((l.insertionSort (fun a b => a.1 ≤ b.1)).map Prod.fst).Nodup := by
      have hmp : ((l.insertionSort (fun a b => a.1 ≤ b.1)).map Prod.fst).Perm
          (l.map Prod.fst) := (List.perm_insertionSort _ l).map _
      exact (hmp.nodup_iff).mpr hl
    have hne : (l.insertionSort (fun a b => a.1 ≤ b.1)).Pairwise
        (fun a b => a.1 ≠ b.1) := by
      rw [List.Nodup, List.pairwise_map] at hn
      exact hn
    exact (hs.and hne).imp (fun hab => lt_of_le_of_ne hab.1 hab.2)
  exact List.eq_of_perm_of_sorted hperm
    (hstrict l1 hnd) (hstrict l2 ((hp.map Prod.fst).nodup_iff.mp hnd))

/-- C9: the canonical serialization (and hence the hash) is deterministic and
insertion-order independent: two mappings holding exactly the same key-value
pairs, in any insertion order, serialize to identical bytes and hash to
identical digests; and the block hash is pure, so repeated calls agree. -/
theorem jsonHash_perm_invariant (kvs1 kvs2 : List (String × J))
    (hp : kvs1.Perm kvs2) (hnd : (kvs1.map Prod.fst).Nodup) :
    dumps (J.jobj kvs1) = dumps (J.jobj kvs2) ∧
    jsonHash kvs1 = jsonHash kvs2 ∧
    ∀ b : Block, hashBlock b = hashBlock b := by
  have hsz : jsize (J.jobj kvs1) = jsize (J.jobj kvs2) := by
    simp only [jsize]
    rw [perm_jsizeObj hp]
  have hsort := insertionSort_key_perm_eq kvs1 kvs2 hp hnd
  have hdump : dumps (J.jobj kvs1) = dumps (J.jobj kvs2) := by
    rw [dumps, dumps, hsz]
    obtain ⟨n, hn⟩ : ∃ n, jsize (J.jobj kvs2) = n + 1 :=
      ⟨jsizeObj kvs2, by simp [jsize]; omega⟩
    rw [hn]
    simp only [dumpsF]
    rw [hsort]
  exact ⟨hdump, by rw [jsonHash, jsonHash, hdump], fun _ => rfl⟩

/-- Witness for C9: a two-entry mapping and its transposition hash alike. -/
theorem jsonHash_perm_invariant_witness :
    jsonHash [("b", J.jint 1), ("a", J.jstr "x")] =
      jsonHash [("a", J.jstr "x"), ("b", J.jint 1)] :=
  (jsonHash_perm_invariant [("b", J.jint 1), ("a", J.jstr "x")]
    [("a", J.jstr "x"), ("b", J.jint 1)]
    (List.Perm.swap ("a", J.jstr "x") ("b", J.jint 1) [])
    (by simp)).2.1

end ChainLite
